import Mathlib

/-!
Verification development for the timeline / filter-graph / retry core of the
ai_editVideo pipeline.

Embedding conventions:
* Python floats are modelled as exact rationals (`ℚ`).  All timestamps,
  durations, confidences, scales and opacities in the claims are small dyadic
  values, for which Python float arithmetic is exact, so this is faithful on
  the claims' domain.
* Strings produced by the renderer (filter graphs, command lines) are built
  with the same concatenations as the source.  Where Python interpolates a
  float into a string we use `fq : ℚ → String` (exact-rational rendering) as
  the stand-in for Python's float `repr`; the claims depend only on the
  structure of the generated text, never on the decimal notation of numbers.
* Filesystem and subprocess effects are modelled as inspectable plans /
  outcomes (`RenderPlan`, `Outcome`): the render entry point is modelled up to
  the command it would execute, and the retry controller is modelled against
  an oracle `fails : ℕ → List VisualInsertion → Bool` saying whether the
  render attempt with a given attempt index and decision set raises
  `RenderingError`.
* In-place mutation (the bounds validator assigns `insertion.duration`) is
  modelled by threading the final state of the input records through the
  recursion (`boundsRun` returns both the returned list and the final state
  of the inputs).
-/

-- The executable model computes with `ℚ`.  The Batteries `Rat` primitives are
-- marked irreducible, which blocks `decide`/`rfl` evaluation of concrete
-- rational arithmetic at elaboration time; restoring the default reducibility
-- only re-enables unfolding (the kernel, which re-checks every proof, ignores
-- reducibility attributes altogether).
set_option allowUnsafeReducibility true in
attribute [semireducible] Rat.ofScientific Rat.add Rat.sub Rat.mul Rat.inv
  Rat.div Rat.blt Rat.normalize Rat.neg Rat.ofInt mkRat

/-- Asset kind of a fetched asset (`Literal["image", "video"]` in
`models/decision.py` and `models/timeline.py`). -/
inductive AssetType where
  | image
  | video
deriving DecidableEq, Repr

/-- Insertion kind (`Literal["overlay", "cutaway"]`). -/
inductive InsertionType where
  | overlay
  | cutaway
deriving DecidableEq, Repr

/-- Symbolic position (`Literal["top-left", ...]` in `models/decision.py`). -/
inductive Position where
  | topLeft
  | topRight
  | bottomLeft
  | bottomRight
  | center
deriving DecidableEq, Repr

/-- `VisualInsertion` from `src/models/decision.py`: one LLM insertion
decision.  Fields that are plain text in the source (`word`, `entity_type`,
`visual_style`, `search_query`, `reasoning`) are kept as `String`. -/
structure VisualInsertion where
  word : String
  timestamp : ℚ
  confidence : ℚ
  entity_type : String
  visual_style : String
  search_query : String
  duration : ℚ
  insertion_type : InsertionType
  position : Option Position
  reasoning : String
  asset_path : Option String
  asset_type : Option AssetType
deriving DecidableEq, Repr

/-- `PositionCoordinates` from `src/models/timeline.py`. -/
structure PositionCoordinates where
  x : String
  y : String
deriving DecidableEq, Repr

/-- `Transition` from `src/models/timeline.py`. -/
structure Transition where
  fade_in : ℚ
  fade_out : ℚ
deriving DecidableEq, Repr

/-- `TimelineInsertion` from `src/models/timeline.py`. -/
structure TimelineInsertion where
  id : String
  timestamp : ℚ
  duration : ℚ
  asset_path : String
  asset_type : AssetType
  insertion_type : InsertionType
  position : PositionCoordinates
  scale : ℚ
  opacity : ℚ
  transition : Transition
deriving DecidableEq, Repr

/-- `TimelineMetadata` from `src/models/timeline.py` (`render_complexity`
kept as the literal string the source stores). -/
structure TimelineMetadata where
  total_insertions : ℕ
  total_duration : ℚ
  render_complexity : String
deriving DecidableEq, Repr

/-- `Timeline` from `src/models/timeline.py`. -/
structure Timeline where
  base_video : String
  aspect_ratio : String
  insertions : List TimelineInsertion
  metadata : TimelineMetadata
deriving DecidableEq, Repr

/-- Rendering configuration: the keys of the `config` dict used by
`services/renderer.py` and `Timeline.from_decisions` (`default_scale`,
`default_opacity`, `fade_in`, `fade_out`, `preset`, `crf`).  The source
always reads these with `config.get(key, default)`; modelling the dict as a
record with exactly these keys is faithful for every call site in the
repository. -/
structure RenderConfig where
  default_scale : ℚ
  default_opacity : ℚ
  fade_in : ℚ
  fade_out : ℚ
  preset : String
  crf : ℤ
deriving DecidableEq, Repr

/-- The default config built by `render` when `config is None`
(`services/renderer.py`, lines 40-48). -/
def defaultConfig : RenderConfig :=
  { default_scale := 0.4
    default_opacity := 0.85
    fade_in := 0.3
    fade_out := 0.3
    preset := "medium"
    crf := 23 }

/-- Python truthiness of an `Optional[str]`: `None` and the empty string are
falsy.  Used for `if not decision.asset_path: continue`. -/
def truthyOpt : Option String → Bool
  | none => false
  | some s => !s.isEmpty

/-- `Timeline._calculate_position` (`models/timeline.py`, lines 101-112).
The `aspect_ratio` argument is accepted and ignored, exactly as in the
source. -/
def calculatePosition (pos : Position) (_aspect_ratio : String) : PositionCoordinates :=
  match pos with
  | Position.topLeft => { x := "20", y := "20" }
  | Position.topRight => { x := "W-w-20", y := "20" }
  | Position.bottomLeft => { x := "20", y := "H-h-20" }
  | Position.bottomRight => { x := "W-w-20", y := "H-h-20" }
  | Position.center => { x := "(W-w)/2", y := "(H-h)/2" }

/-- Python `f"ins_{idx:03d}"`: decimal digits, zero-padded on the left to at
least three characters. -/
def pad3 (n : ℕ) : String :=
  let s := toString n
  if s.length ≥ 3 then s else String.mk (List.replicate (3 - s.length) '0') ++ s

/-- The body of the loop in `Timeline.from_decisions` (`models/timeline.py`,
lines 66-80): the `TimelineInsertion` built from decision `d` at enumeration
index `idx`.  `decision.position or "top-right"` resolves a missing position
to top-right; `decision.asset_type or "image"` resolves a missing asset kind
to `"image"`. -/
def mkTimelineInsertion (idx : ℕ) (aspect_ratio : String) (d : VisualInsertion)
    (cfg : RenderConfig) : TimelineInsertion :=
  { id := "ins_" ++ pad3 idx
    timestamp := d.timestamp
    duration := d.duration
    asset_path := d.asset_path.getD ""
    asset_type := d.asset_type.getD AssetType.image
    insertion_type := d.insertion_type
    position := calculatePosition (d.position.getD Position.topRight) aspect_ratio
    scale := cfg.default_scale
    opacity := cfg.default_opacity
    transition := { fade_in := cfg.fade_in, fade_out := cfg.fade_out } }

/-- The `for idx, decision in enumerate(decisions)` loop of
`Timeline.from_decisions`: `idx` counts every decision, kept or skipped;
decisions with a falsy `asset_path` are skipped. -/
def fromDecisionsAux (aspect_ratio : String) (cfg : RenderConfig) :
    List VisualInsertion → ℕ → List TimelineInsertion
  | [], _ => []
  | d :: rest, idx =>
    if truthyOpt d.asset_path then
      mkTimelineInsertion idx aspect_ratio d cfg :: fromDecisionsAux aspect_ratio cfg rest (idx + 1)
    else
      fromDecisionsAux aspect_ratio cfg rest (idx + 1)

/-- `max([i.timestamp + i.duration for i in insertions]) if insertions else 0`
(`models/timeline.py`, line 96). -/
def maxEnd : List TimelineInsertion → ℚ
  | [] => 0
  | x :: xs => xs.foldl (fun m i => max m (i.timestamp + i.duration)) (x.timestamp + x.duration)

/-- `Timeline.from_decisions` (`models/timeline.py`, lines 46-99). -/
def Timeline.from_decisions (base_video aspect_ratio : String)
    (decisions : List VisualInsertion) (cfg : RenderConfig) : Timeline :=
  let insertions := fromDecisionsAux aspect_ratio cfg decisions 0
  let complexity :=
    if insertions.length > 10 then "high"
    else if insertions.length > 5 then "medium"
    else "low"
  { base_video := base_video
    aspect_ratio := aspect_ratio
    insertions := insertions
    metadata :=
      { total_insertions := insertions.length
        total_duration := maxEnd insertions
        render_complexity := complexity } }

/-- Stable insertion of `x` into a list sorted ascending by timestamp: `x`
goes before the first element whose timestamp is not smaller.  Processing the
original list left to right with this insertion reproduces Python's stable
`sorted(insertions, key=lambda x: x.timestamp)`. -/
def insertTs (x : VisualInsertion) : List VisualInsertion → List VisualInsertion
  | [] => [x]
  | y :: ys => if x.timestamp ≤ y.timestamp then x :: y :: ys else y :: insertTs x ys

/-- `sorted(insertions, key=lambda x: x.timestamp)` (stable, ascending). -/
def sortTsAsc : List VisualInsertion → List VisualInsertion
  | [] => []
  | x :: xs => insertTs x (sortTsAsc xs)

/-- The walk in `validate_insertions_frequency` (`utils/validators.py`, lines
58-71): keep a decision iff `timestamp - last_insertion_time >= thr`, updating
`last_insertion_time` on keeps. -/
def freqWalk (thr : ℚ) : List VisualInsertion → ℚ → List VisualInsertion
  | [], _ => []
  | d :: rest, last =>
    if d.timestamp - last ≥ thr then d :: freqWalk thr rest d.timestamp
    else freqWalk thr rest last

/-- `validate_insertions_frequency` (`utils/validators.py`, lines 40-77):
empty short-circuit, stable sort by timestamp, then the greedy walk with
`last_insertion_time` initialised to `-interval` and threshold
`interval / max_per_interval`. -/
def validate_insertions_frequency (insertions : List VisualInsertion)
    (max_per_interval : ℕ) (interval : ℚ) : List VisualInsertion :=
  if insertions = [] then []
  else freqWalk (interval / max_per_interval) (sortTsAsc insertions) (-interval)

/-- Operational model of `validate_insertion_bounds` (`utils/validators.py`,
lines 80-115) tracking mutation: returns `(valid_insertions, final state of
the input records)`.  The source's line 104 (`insertion.duration =
new_duration`) mutates the input record in place before appending it, so the
clamped record appears mutated in both lists. -/
def boundsRun : List VisualInsertion → ℚ → List VisualInsertion × List VisualInsertion
  | [], _ => ([], [])
  | d :: rest, video_duration =>
    let step := boundsRun rest video_duration
    if d.timestamp < 0 then
      (step.1, d :: step.2)
    else if d.timestamp + d.duration > video_duration then
      let new_duration := video_duration - d.timestamp
      if new_duration ≥ 0.5 then
        let d2 := { d with duration := new_duration }
        (d2 :: step.1, d2 :: step.2)
      else
        (step.1, d :: step.2)
    else
      (d :: step.1, d :: step.2)

/-- The list returned by `validate_insertion_bounds`. -/
def validate_insertion_bounds (insertions : List VisualInsertion)
    (video_duration : ℚ) : List VisualInsertion :=
  (boundsRun insertions video_duration).1

/-- The final state of the input records after `validate_insertion_bounds`
(capturing the in-place `insertion.duration = new_duration` of line 104). -/
def boundsInputsAfter (insertions : List VisualInsertion)
    (video_duration : ℚ) : List VisualInsertion :=
  (boundsRun insertions video_duration).2

/-! ## Filter-graph compiler and command builder (`src/services/renderer.py`) -/

/-- Stand-in for Python's float interpolation into f-strings: exact-rational
rendering of the number.  The claims under verification depend only on the
structure of the generated text, not on the decimal notation of numbers. -/
def fq (q : ℚ) : String := toString q

/-- A single-quote character, written via its code point. -/
def sQuote : String := String.singleton (Char.ofNat 39)

/-- Python `int(...)` truncation toward zero of an exact rational.  On the
nonnegative operands produced by `scale * width` both division conventions
agree, so the value is written convention-independently. -/
def pyInt (q : ℚ) : ℤ :=
  if q.num ≥ 0 then q.num / (q.den : ℤ) else -((-q.num) / (q.den : ℤ))

/-- The per-asset processing chain of `build_filter_complex`
(`services/renderer.py`, lines 121-147): the `filter_parts` list joined with
`","`.  The image branch's trailing `"loop=...[overlay{idx}]"` is a plain
(non-f) string in the source whose literal `{idx}` is patched by the
`.replace("[overlay{idx}]", f"[overlay{idx}]")` on line 147; the net effect —
the actual index spliced in — is modelled directly. -/
def assetFilter (input_index idx : ℕ) (ins : TimelineInsertion) (w h : ℕ) : String :=
  let scaled_width := pyInt (ins.scale * w)
  let scaled_height := pyInt (ins.scale * h)
  if ins.asset_type = AssetType.video then
    String.intercalate ","
      [ "[" ++ toString input_index ++ ":v]",
        "scale=" ++ toString scaled_width ++ ":" ++ toString scaled_height,
        "fade=in:st=0:d=" ++ fq ins.transition.fade_in ++ ":alpha=1",
        "fade=out:st=" ++ fq (ins.duration - ins.transition.fade_out) ++ ":d="
          ++ fq ins.transition.fade_out ++ ":alpha=1",
        "trim=duration=" ++ fq ins.duration,
        "setpts=PTS-STARTPTS",
        "format=rgba,colorchannelmixer=aa=" ++ fq ins.opacity
          ++ "[overlay" ++ toString idx ++ "]" ]
  else
    String.intercalate ","
      [ "[" ++ toString input_index ++ ":v]",
        "scale=" ++ toString scaled_width ++ ":" ++ toString scaled_height,
        "fade=in:st=0:d=" ++ fq ins.transition.fade_in ++ ":alpha=1",
        "fade=out:st=" ++ fq (ins.duration - ins.transition.fade_out) ++ ":d="
          ++ fq ins.transition.fade_out ++ ":alpha=1",
        "format=rgba",
        "colorchannelmixer=aa=" ++ fq ins.opacity,
        "loop=loop=-1:size=1:start=0[overlay" ++ toString idx ++ "]" ]

/-- The overlay step of `build_filter_complex` (lines 149-161): composite
`[overlay{idx}]` onto the running chain with a `between` enable window. -/
def overlayStep (chain : String) (idx : ℕ) (ins : TimelineInsertion)
    (next_chain : String) : String :=
  chain ++ "[overlay" ++ toString idx ++ "]overlay=x=" ++ ins.position.x
    ++ ":y=" ++ ins.position.y ++ ":enable=" ++ sQuote
    ++ "between(t," ++ fq ins.timestamp ++ "," ++ fq (ins.timestamp + ins.duration) ++ ")"
    ++ sQuote ++ next_chain

/-- The label the running chain gets after overlay `idx` of `n` insertions:
`'[outv]' if idx == len(insertions) - 1 else f'[tmp{idx}]'`. -/
def nextChainLabel (idx n : ℕ) : String :=
  if idx = n - 1 then "[outv]" else "[tmp" ++ toString idx ++ "]"

/-- The `filters` list accumulated by the loop of `build_filter_complex`
(lines 109-162): for each insertion, the asset chain filter then the overlay
filter, threading the running chain label. -/
def filtersAux (w h : ℕ) : List TimelineInsertion → ℕ → ℕ → String → List String
  | [], _, _, _ => []
  | ins :: rest, idx, n, overlay_chain =>
    assetFilter (idx + 1) idx ins w h
      :: overlayStep overlay_chain idx ins (nextChainLabel idx n)
      :: filtersAux w h rest (idx + 1) n (nextChainLabel idx n)

/-- The full `filters` list of `build_filter_complex` for a timeline, with the
base-video dimensions `w × h` obtained from `get_video_info` passed in
explicitly (the probe is an external effect). -/
def buildFilters (tl : Timeline) (w h : ℕ) : List String :=
  filtersAux w h tl.insertions 0 tl.insertions.length "[0:v]"

/-- `build_filter_complex` (`services/renderer.py`, lines 99-164):
`";".join(filters)`. -/
def build_filter_complex (tl : Timeline) (w h : ℕ) : String :=
  String.intercalate ";" (buildFilters tl w h)

/-- `build_ffmpeg_command` (`services/renderer.py`, lines 167-222): the exact
sequence of `command.extend` / `append` calls. -/
def build_ffmpeg_command (tl : Timeline) (output_path : String)
    (filter_complex : String) (cfg : RenderConfig) : List String :=
  ["ffmpeg", "-y"]
    ++ ["-i", tl.base_video]
    ++ tl.insertions.flatMap (fun ins => ["-i", ins.asset_path])
    ++ ["-filter_complex", filter_complex]
    ++ ["-map", "[outv]", "-map", "0:a?"]
    ++ ["-c:v", "libx264", "-preset", cfg.preset, "-crf", toString cfg.crf,
        "-pix_fmt", "yuv420p"]
    ++ ["-c:a", "aac", "-b:a", "192k"]
    ++ ["-movflags", "+faststart"]
    ++ [output_path]

/-- The input files of an ffmpeg argument list: every argument following a
literal `-i` flag, in order. -/
def inputPathsOf : List String → List String
  | [] => []
  | a :: rest =>
    if a = "-i" then
      match rest with
      | [] => []
      | x :: rest2 => x :: inputPathsOf rest2
    else inputPathsOf rest

/-- What `render` (`services/renderer.py`, lines 17-96) does after building
the timeline, up to the external effects: either copy the source to the
output (empty timeline short-circuit, lines 60-65) or run the built ffmpeg
command. -/
inductive RenderPlan where
  | copySource : RenderPlan
  | runCommand : List String → RenderPlan
deriving DecidableEq, Repr

/-- The render entry point, modelled up to the command it would execute.
`w`/`h` are the probed base-video dimensions. -/
def renderPlan (video : String) (decisions : List VisualInsertion)
    (output : String) (aspect_ratio : String) (cfg : RenderConfig)
    (w h : ℕ) : RenderPlan :=
  let tl := Timeline.from_decisions video aspect_ratio decisions cfg
  if tl.insertions.isEmpty then RenderPlan.copySource
  else RenderPlan.runCommand
    (build_ffmpeg_command tl output (build_filter_complex tl w h) cfg)

/-! ## Retry / degradation controller (`render_with_retry`) -/

/-- Stable insertion for descending confidence: `x` goes before the first
element whose confidence is not above `x`'s.  Processing the original list
left to right with this insertion reproduces Python's stable
`sorted(decisions, key=lambda x: x.confidence, reverse=True)`. -/
def insertConfDesc (x : VisualInsertion) :
    List VisualInsertion → List VisualInsertion
  | [] => [x]
  | y :: ys =>
    if y.confidence ≤ x.confidence then x :: y :: ys else y :: insertConfDesc x ys

/-- `sorted(decisions, key=lambda x: x.confidence, reverse=True)` (stable,
descending). -/
def sortConfDesc : List VisualInsertion → List VisualInsertion
  | [] => []
  | x :: xs => insertConfDesc x (sortConfDesc xs)

/-- Python `max(decisions, key=lambda x: x.confidence)`: the first element of
maximal confidence (`max` keeps the current best on ties), `none` on an empty
list (where Python raises `ValueError`). -/
def maxConfFirst : List VisualInsertion → Option VisualInsertion
  | [] => none
  | x :: xs => some (xs.foldl (fun acc y => if acc.confidence < y.confidence then y else acc) x)

/-- Outcome of `render_with_retry`: a successful render with the decision set
finally used, the terminal fallback (copy the source verbatim to the output
path and return it), or an uncaught Python error (the `ValueError` that
`max([])` would raise). -/
inductive Outcome where
  | ok : List VisualInsertion → Outcome
  | fallbackCopy : Outcome
  | pyError : Outcome
deriving DecidableEq, Repr

/-- The loop of `render_with_retry` (`services/renderer.py`, lines 314-344),
driven by an oracle `fails attempt current` telling whether the render
attempt with the given attempt index and decision set raises
`RenderingError`.  `remaining = max_retries - attempt`; the loop body is
reproduced for both `remaining` shapes: on failure with `remaining = 0` the
incremented attempt exceeds `max_retries`, so the source is copied to the
output and returned (`fallbackCopy`); otherwise the set is reduced — top half
by confidence after the first failure (`attempt == 1` after increment, i.e.
entry attempt 0), the single highest-confidence decision after later
failures — and the loop re-enters.  Returns the list of decision sets passed
to `render`, in order, together with the outcome. -/
def retryAux (fails : ℕ → List VisualInsertion → Bool) :
    ℕ → ℕ → List VisualInsertion → List (List VisualInsertion) × Outcome
  | attempt, 0, current =>
    if fails attempt current then ([current], Outcome.fallbackCopy)
    else ([current], Outcome.ok current)
  | attempt, remaining + 1, current =>
    if fails attempt current then
      if attempt = 0 then
        let reduced := (sortConfDesc current).take (current.length / 2)
        let step := retryAux fails (attempt + 1) remaining reduced
        (current :: step.1, step.2)
      else
        match maxConfFirst current with
        | none => ([current], Outcome.pyError)
        | some d =>
          let step := retryAux fails (attempt + 1) remaining [d]
          (current :: step.1, step.2)
    else ([current], Outcome.ok current)

/-- `render_with_retry` with its loop counter at the initial state
(`attempt = 0`, `remaining = max_retries`). -/
def render_with_retry (fails : ℕ → List VisualInsertion → Bool)
    (decisions : List VisualInsertion) (max_retries : ℕ) :
    List (List VisualInsertion) × Outcome :=
  retryAux fails 0 max_retries decisions

/-! ## Definitions written from the claims' words, for comparison -/

/-- Claim C5's per-decision bounds rule, written from the spec's words: drop
negative timestamps; shrink an overlong duration to `totalDuration -
timestamp` when the result is at least half a second, otherwise drop. -/
def boundsStep (video_duration : ℚ) (d : VisualInsertion) : Option VisualInsertion :=
  if d.timestamp < 0 then none
  else if d.timestamp + d.duration > video_duration then
    if video_duration - d.timestamp ≥ 0.5 then
      some { d with duration := video_duration - d.timestamp }
    else none
  else some d

/-- The per-record effect of `validate_insertion_bounds` on its input list
(claim C9): a record is changed exactly when line 104
(`insertion.duration = new_duration`) runs on it — nonnegative timestamp,
overlong end, shrunk duration at least half a second — and then only its
`duration` field is replaced. -/
def boundsMut (video_duration : ℚ) (d : VisualInsertion) : VisualInsertion :=
  if d.timestamp < 0 then d
  else if d.timestamp + d.duration > video_duration then
    if video_duration - d.timestamp ≥ 0.5 then
      { d with duration := video_duration - d.timestamp }
    else d
  else d

/-- Claim C6's reading of the spacing walk, with no sentinel: the first
decision is kept unconditionally (there is no last kept timestamp yet), and a
later decision is kept exactly when it is at least `thr` after the last kept
timestamp. -/
def freqWalkSpec (thr : ℚ) : List VisualInsertion → Option ℚ → List VisualInsertion
  | [], _ => []
  | d :: rest, none => d :: freqWalkSpec thr rest (some d.timestamp)
  | d :: rest, some last =>
    if d.timestamp - last ≥ thr then d :: freqWalkSpec thr rest (some d.timestamp)
    else freqWalkSpec thr rest (some last)

/-- The enumeration indices of the decisions `Timeline.from_decisions` keeps
(claim C8): the positions, in the input list, of the decisions with a truthy
`asset_path`. -/
def keptIdxAux : List VisualInsertion → ℕ → List ℕ
  | [], _ => []
  | d :: rest, i =>
    if truthyOpt d.asset_path then i :: keptIdxAux rest (i + 1)
    else keptIdxAux rest (i + 1)

/-- A concrete decision record used by scenario conjuncts, witnesses and
counterexamples; only the parameterised fields matter to the validators and
the builder. -/
def sampleDec (ts conf dur : ℚ) (path : Option String) (atype : Option AssetType) :
    VisualInsertion :=
  { word := "w"
    timestamp := ts
    confidence := conf
    entity_type := "person"
    visual_style := "cinematic"
    search_query := "q"
    duration := dur
    insertion_type := InsertionType.overlay
    position := none
    reasoning := "r"
    asset_path := path
    asset_type := atype }

/-! ## Helper lemmas -/

theorem boundsRun_fst (l : List VisualInsertion) (dur : ℚ) :
    (boundsRun l dur).1 = l.filterMap (boundsStep dur) := by
  induction l with
  | nil => rfl
  | cons d rest ih =>
    simp only [boundsRun, boundsStep, List.filterMap_cons]
    split_ifs <;> simp_all

theorem boundsRun_snd (l : List VisualInsertion) (dur : ℚ) :
    (boundsRun l dur).2 = l.map (boundsMut dur) := by
  induction l with
  | nil => rfl
  | cons d rest ih =>
    simp only [boundsRun, boundsMut, List.map_cons]
    split_ifs <;> simp [ih]

theorem mem_insertTs {x y : VisualInsertion} :
    ∀ {l : List VisualInsertion}, y ∈ insertTs x l ↔ y = x ∨ y ∈ l := by
  intro l
  induction l with
  | nil => simp [insertTs]
  | cons z zs ih =>
    simp only [insertTs]
    split_ifs
    · simp
    · simp [ih]; tauto

theorem mem_sortTsAsc {y : VisualInsertion} :
    ∀ {l : List VisualInsertion}, y ∈ sortTsAsc l ↔ y ∈ l := by
  intro l
  induction l with
  | nil => simp [sortTsAsc]
  | cons x xs ih => simp [sortTsAsc, mem_insertTs, ih]

theorem freqWalk_sublist (thr : ℚ) :
    ∀ (l : List VisualInsertion) (last : ℚ),
      List.Sublist (freqWalk thr l last) l := by
  intro l
  induction l with
  | nil => intro last; simp [freqWalk]
  | cons d rest ih =>
    intro last
    simp only [freqWalk]
    split_ifs
    · exact List.Sublist.cons₂ d (ih d.timestamp)
    · exact List.Sublist.cons d (ih last)

theorem pairwise_insertTs {x : VisualInsertion} :
    ∀ {l : List VisualInsertion},
      l.Pairwise (fun a b => a.timestamp ≤ b.timestamp) →
      (insertTs x l).Pairwise (fun a b => a.timestamp ≤ b.timestamp) := by
  intro l
  induction l with
  | nil => intro h; simp [insertTs]
  | cons y ys ih =>
    intro h
    rw [List.pairwise_cons] at h
    simp only [insertTs]
    split_ifs with hle
    · refine List.Pairwise.cons ?_ (List.Pairwise.cons h.1 h.2)
      intro b hb
      rcases List.mem_cons.mp hb with rfl | hb
      · exact hle
      · exact le_trans hle (h.1 b hb)
    · refine List.Pairwise.cons ?_ (ih h.2)
      intro b hb
      rcases mem_insertTs.mp hb with rfl | hb
      · exact le_of_not_le hle
      · exact h.1 b hb

theorem sortTsAsc_pairwise :
    ∀ (l : List VisualInsertion),
      (sortTsAsc l).Pairwise (fun a b => a.timestamp ≤ b.timestamp) := by
  intro l
  induction l with
  | nil => simp [sortTsAsc]
  | cons x xs ih => exact pairwise_insertTs ih

theorem freqWalk_bounds (thr : ℚ) (hthr : 0 ≤ thr) :
    ∀ (l : List VisualInsertion) (last : ℚ),
      (∀ b ∈ freqWalk thr l last, last + thr ≤ b.timestamp)
      ∧ (freqWalk thr l last).Pairwise
          (fun a b => thr ≤ b.timestamp - a.timestamp) := by
  intro l
  induction l with
  | nil => intro last; simp [freqWalk]
  | cons d rest ih =>
    intro last
    simp only [freqWalk]
    split_ifs with hkeep
    · constructor
      · intro b hb
        rcases List.mem_cons.mp hb with rfl | hb
        · linarith [hkeep]
        · have := (ih d.timestamp).1 b hb
          linarith [hkeep]
      · refine List.Pairwise.cons ?_ (ih d.timestamp).2
        intro b hb
        have := (ih d.timestamp).1 b hb
        linarith
    · exact ih last

theorem pairwise_rel_of_mem {α : Type} {R : α → α → Prop} :
    ∀ (l : List α), l.Pairwise R →
      ∀ a b : α, a ∈ l → b ∈ l → a = b ∨ R a b ∨ R b a := by
  intro l
  induction l with
  | nil => intro _ a b ha; simp at ha
  | cons x t ih =>
    intro hl a b ha hb
    rw [List.pairwise_cons] at hl
    rcases List.mem_cons.mp ha with rfl | ha'
    · rcases List.mem_cons.mp hb with rfl | hb'
      · exact Or.inl rfl
      · exact Or.inr (Or.inl (hl.1 b hb'))
    · rcases List.mem_cons.mp hb with rfl | hb'
      · exact Or.inr (Or.inr (hl.1 a ha'))
      · exact ih hl.2 a b ha' hb'

theorem freqWalkSpec_some (thr : ℚ) :
    ∀ (l : List VisualInsertion) (t : ℚ),
      freqWalkSpec thr l (some t) = freqWalk thr l t := by
  intro l
  induction l with
  | nil => intro t; rfl
  | cons d rest ih =>
    intro t
    simp only [freqWalkSpec, freqWalk]
    split_ifs <;> rw [ih]

theorem insertTs_ne_nil (x : VisualInsertion) (l : List VisualInsertion) :
    insertTs x l ≠ [] := by
  cases l with
  | nil => simp [insertTs]
  | cons y ys => simp only [insertTs]; split_ifs <;> simp

theorem fromDecisionsAux_map_id (ar : String) (cfg : RenderConfig) :
    ∀ (ds : List VisualInsertion) (i : ℕ),
      (fromDecisionsAux ar cfg ds i).map (fun x => x.id)
        = (keptIdxAux ds i).map (fun j => "ins_" ++ pad3 j) := by
  intro ds
  induction ds with
  | nil => intro i; rfl
  | cons d rest ih =>
    intro i
    simp only [fromDecisionsAux, keptIdxAux]
    split_ifs
    · simp only [List.map_cons, ih, mkTimelineInsertion]
    · exact ih (i + 1)

theorem fromDecisionsAux_length (ar : String) (cfg : RenderConfig) :
    ∀ (ds : List VisualInsertion) (i : ℕ),
      (fromDecisionsAux ar cfg ds i).length
        = (ds.filter (fun d => truthyOpt d.asset_path)).length := by
  intro ds
  induction ds with
  | nil => intro i; rfl
  | cons d rest ih =>
    intro i
    simp only [fromDecisionsAux, List.filter_cons]
    by_cases h : truthyOpt d.asset_path = true <;> simp [h, ih]

theorem fromDecisionsAux_nil (ar : String) (cfg : RenderConfig) :
    ∀ (ds : List VisualInsertion) (i : ℕ),
      (∀ d ∈ ds, truthyOpt d.asset_path = false) →
      fromDecisionsAux ar cfg ds i = [] := by
  intro ds
  induction ds with
  | nil => intro i _; rfl
  | cons d rest ih =>
    intro i h
    have hd := h d (List.mem_cons_self d rest)
    simp only [fromDecisionsAux, hd]
    exact ih (i + 1) (fun x hx => h x (List.mem_cons_of_mem d hx))

theorem mem_insertConfDesc {x y : VisualInsertion} :
    ∀ {l : List VisualInsertion}, y ∈ insertConfDesc x l ↔ y = x ∨ y ∈ l := by
  intro l
  induction l with
  | nil => simp [insertConfDesc]
  | cons z zs ih =>
    simp only [insertConfDesc]
    split_ifs
    · simp
    · simp [ih]; tauto

theorem insertConfDesc_pairwise {x : VisualInsertion} :
    ∀ {l : List VisualInsertion},
      l.Pairwise (fun a b => b.confidence ≤ a.confidence) →
      (insertConfDesc x l).Pairwise (fun a b => b.confidence ≤ a.confidence) := by
  intro l
  induction l with
  | nil => intro h; simp [insertConfDesc]
  | cons y ys ih =>
    intro h
    rw [List.pairwise_cons] at h
    simp only [insertConfDesc]
    split_ifs with hle
    · refine List.Pairwise.cons ?_ (List.Pairwise.cons h.1 h.2)
      intro b hb
      rcases List.mem_cons.mp hb with rfl | hb
      · exact hle
      · exact le_trans (h.1 b hb) hle
    · refine List.Pairwise.cons ?_ (ih h.2)
      intro b hb
      rcases mem_insertConfDesc.mp hb with rfl | hb
      · exact le_of_not_le hle
      · exact h.1 b hb

theorem sortConfDesc_pairwise :
    ∀ (l : List VisualInsertion),
      (sortConfDesc l).Pairwise (fun a b => b.confidence ≤ a.confidence) := by
  intro l
  induction l with
  | nil => simp [sortConfDesc]
  | cons x xs ih => exact insertConfDesc_pairwise ih

theorem insertConfDesc_filter (x : VisualInsertion) (c : ℚ) :
    ∀ l : List VisualInsertion,
      (insertConfDesc x l).filter (fun d => d.confidence = c)
        = if x.confidence = c then x :: l.filter (fun d => d.confidence = c)
          else l.filter (fun d => d.confidence = c) := by
  intro l
  induction l with
  | nil =>
    by_cases hx : x.confidence = c <;> simp [insertConfDesc, List.filter, hx]
  | cons y ys ih =>
    simp only [insertConfDesc]
    split_ifs with hyx hx hx
    · simp [List.filter_cons, hx]
    · simp [List.filter_cons, hx]
    · have hy : ¬ y.confidence = c := fun hy => hyx (le_of_eq (hy.trans hx.symm))
      simp [List.filter_cons, hx, hy, ih]
    · by_cases hy : y.confidence = c <;> simp [List.filter_cons, hx, hy, ih]

theorem sortConfDesc_filter (c : ℚ) :
    ∀ l : List VisualInsertion,
      (sortConfDesc l).filter (fun d => d.confidence = c)
        = l.filter (fun d => d.confidence = c) := by
  intro l
  induction l with
  | nil => rfl
  | cons x xs ih =>
    simp only [sortConfDesc, insertConfDesc_filter, ih, List.filter_cons]
    by_cases hx : x.confidence = c <;> simp [hx]

theorem retryAux_head (f : ℕ → List VisualInsertion → Bool) (a rem : ℕ)
    (cur : List VisualInsertion) :
    ((retryAux f a rem cur).1)[0]? = some cur := by
  cases rem with
  | zero => simp only [retryAux]; split_ifs <;> simp
  | succ r =>
    simp only [retryAux]
    split_ifs
    · simp
    · cases maxConfFirst cur <;> simp
    · simp

theorem retryAux_length (f : ℕ → List VisualInsertion → Bool) :
    ∀ (rem a : ℕ) (cur : List VisualInsertion),
      (retryAux f a rem cur).1.length ≤ rem + 1 := by
  intro rem
  induction rem with
  | zero => intro a cur; simp only [retryAux]; split_ifs <;> simp
  | succ r ih =>
    intro a cur
    simp only [retryAux]
    split_ifs
    · simpa using Nat.succ_le_succ (ih (a + 1) _)
    · cases maxConfFirst cur with
      | none => simp
      | some d => simpa using Nat.succ_le_succ (ih (a + 1) [d])
    · simp

theorem retryAux_step_ge1 (f : ℕ → List VisualInsertion → Bool) :
    ∀ (rem a : ℕ) (cur : List VisualInsertion), 1 ≤ a →
      ∀ (k : ℕ) (s s' : List VisualInsertion),
        ((retryAux f a rem cur).1)[k]? = some s →
        ((retryAux f a rem cur).1)[k + 1]? = some s' →
        ∃ d, maxConfFirst s = some d ∧ s' = [d] := by
  intro rem
  induction rem with
  | zero =>
    intro a cur _ k s s' _ hk1
    have hlen : ((retryAux f a 0 cur).1).length = 1 := by
      simp only [retryAux]; split_ifs <;> rfl
    rw [List.getElem?_eq_none (by omega)] at hk1
    exact absurd hk1 (by simp)
  | succ r ih =>
    intro a cur ha k s s' hk hk1
    have ha0 : ¬ a = 0 := by omega
    simp only [retryAux, if_neg ha0] at hk hk1
    by_cases hf : f a cur = true
    · rw [if_pos hf] at hk hk1
      cases hm : maxConfFirst cur with
      | none =>
        rw [hm] at hk1
        have : k + 1 ≥ ([cur] : List (List VisualInsertion)).length := by simp
        rw [List.getElem?_eq_none this] at hk1
        exact absurd hk1 (by simp)
      | some d =>
        rw [hm] at hk hk1
        cases k with
        | zero =>
          have hs : cur = s := by simpa using hk
          have hs' : s' = [d] := by
            have hh := retryAux_head f (a + 1) r [d]
            rw [List.getElem?_cons_succ, hh] at hk1
            exact (Option.some_injective _ hk1).symm
          exact ⟨d, by rw [← hs, hm], hs'⟩
        | succ j =>
          exact ih (a + 1) [d] (by omega) j s s'
            (by simpa using hk) (by simpa using hk1)
    · rw [if_neg hf] at hk1
      have : k + 1 ≥ ([cur] : List (List VisualInsertion)).length := by simp
      rw [List.getElem?_eq_none this] at hk1
      exact absurd hk1 (by simp)

theorem maxConfFirst_eq_none {cur : List VisualInsertion} :
    maxConfFirst cur = none ↔ cur = [] := by
  cases cur <;> simp [maxConfFirst]

theorem retryAux_no_pyError (f : ℕ → List VisualInsertion → Bool)
    (hE : ∀ n, f n [] = false) :
    ∀ (rem a : ℕ) (cur : List VisualInsertion),
      (retryAux f a rem cur).2 ≠ Outcome.pyError := by
  intro rem
  induction rem with
  | zero => intro a cur; simp only [retryAux]; split_ifs <;> simp
  | succ r ih =>
    intro a cur
    simp only [retryAux]
    split_ifs with hf h0
    · exact ih (a + 1) _
    · cases hm : maxConfFirst cur with
      | none =>
        have hnil : cur = [] := maxConfFirst_eq_none.mp hm
        subst hnil
        rw [hE a] at hf
        exact absurd hf (by simp)
      | some d => exact ih (a + 1) [d]
    · simp

theorem inputPathsOf_single (x : String) : inputPathsOf [x] = [] := by
  simp only [inputPathsOf]
  split_ifs <;> rfl

theorem inputPathsOf_cons_i (x : String) (rest : List String) :
    inputPathsOf ("-i" :: x :: rest) = x :: inputPathsOf rest := rfl

theorem inputPathsOf_cons_ne (a : String) (rest : List String) (h : ¬ a = "-i") :
    inputPathsOf (a :: rest) = inputPathsOf rest := by
  rw [inputPathsOf.eq_def]
  simp only [if_neg h]

theorem inputPathsOf_flatMap (rest : List String) :
    ∀ l : List TimelineInsertion,
      inputPathsOf (l.flatMap (fun ins => ["-i", ins.asset_path]) ++ rest)
        = l.map (fun i => i.asset_path) ++ inputPathsOf rest := by
  intro l
  induction l with
  | nil => simp
  | cons x xs ih =>
    simp only [List.flatMap_cons, List.cons_append, List.nil_append,
      List.append_assoc, List.map_cons]
    rw [inputPathsOf_cons_i, ih]

theorem filtersAux_get (w h : ℕ) :
    ∀ (l : List TimelineInsertion) (idx n : ℕ) (chain : String) (k : ℕ)
      (ins : TimelineInsertion), l[k]? = some ins →
      (filtersAux w h l idx n chain)[2 * k]?
          = some (assetFilter (idx + k + 1) (idx + k) ins w h)
      ∧ (filtersAux w h l idx n chain)[2 * k + 1]?
          = some (overlayStep
              (if k = 0 then chain else nextChainLabel (idx + k - 1) n)
              (idx + k) ins (nextChainLabel (idx + k) n)) := by
  intro l
  induction l with
  | nil => intro idx n chain k ins hk; simp at hk
  | cons x rest ih =>
    intro idx n chain k ins hk
    cases k with
    | zero =>
      have hx : x = ins := by simpa using hk
      subst hx
      constructor
      · simp [filtersAux]
      · simp [filtersAux]
    | succ j =>
      have hk' : rest[j]? = some ins := by simpa using hk
      have hstep := ih (idx + 1) n (nextChainLabel idx n) j ins hk'
      have e1 : idx + 1 + j = idx + (j + 1) := by omega
      constructor
      · have e : 2 * (j + 1) = 2 * j + 1 + 1 := by ring
        rw [e]
        simp only [filtersAux, List.getElem?_cons_succ]
        rw [hstep.1, e1]
      · have e : 2 * (j + 1) + 1 = 2 * j + 1 + 1 + 1 := by ring
        rw [e]
        simp only [filtersAux, List.getElem?_cons_succ]
        rw [hstep.2, e1]
        by_cases hj : j = 0
        · subst hj; simp
        · rw [if_neg hj, if_neg (Nat.succ_ne_zero j)]

/-! ## Claim theorems -/

/-- C1: index alignment and time gating of the compiled graph and command.
The engine command's input files are the base video followed by the asset
paths of the timeline insertions in timeline order (so the Nth secondary
input is the Nth insertion's asset, wired to chain input `N+1` — input 0 is
the base video, and the chain filter at list position `2N` reads
`[N+1:v]` by `assetFilter (N+1) N`); each insertion `i`'s layer `overlay_i`
is composited by the overlay step at position `2i+1`, whose base label is the
source stream `[0:v]` for `i = 0` and the previous overlay's output `[tmp
(i-1)]` otherwise, whose output is `[outv]` for the last insertion and `[tmp
i]` otherwise, and which is gated by `between(t, timestamp, timestamp +
duration)` (see `overlayStep`); and the command maps `[outv]` — the final
chain label — as the output video stream. -/
theorem claim_C1_index_alignment
    (tl : Timeline) (w h : ℕ) (out : String) (cfg : RenderConfig)
    (_hne : tl.insertions ≠ [])
    (hfc : ¬ build_filter_complex tl w h = "-i")
    (hp : ¬ cfg.preset = "-i") (hc : ¬ toString cfg.crf = "-i") :
    inputPathsOf (build_ffmpeg_command tl out (build_filter_complex tl w h) cfg)
      = tl.base_video :: tl.insertions.map (fun i => i.asset_path)
    ∧ (∀ (i : ℕ) (ins : TimelineInsertion), tl.insertions[i]? = some ins →
        (buildFilters tl w h)[2 * i]? = some (assetFilter (i + 1) i ins w h)
        ∧ (buildFilters tl w h)[2 * i + 1]?
            = some (overlayStep
                (if i = 0 then "[0:v]" else "[tmp" ++ toString (i - 1) ++ "]")
                i ins
                (if i = tl.insertions.length - 1 then "[outv]"
                 else "[tmp" ++ toString i ++ "]")))
    ∧ (∃ pre post, build_ffmpeg_command tl out (build_filter_complex tl w h) cfg
        = pre ++ ["-map", "[outv]"] ++ post)
    ∧ nextChainLabel (tl.insertions.length - 1) tl.insertions.length = "[outv]" := by
  refine ⟨?_, ?_, ?_, by simp [nextChainLabel]⟩
  · have hcmd : build_ffmpeg_command tl out (build_filter_complex tl w h) cfg
        = "ffmpeg" :: "-y" :: "-i" :: tl.base_video ::
          (tl.insertions.flatMap (fun ins => ["-i", ins.asset_path]) ++
            ("-filter_complex" :: build_filter_complex tl w h :: "-map" :: "[outv]"
              :: "-map" :: "0:a?" :: "-c:v" :: "libx264" :: "-preset" :: cfg.preset
              :: "-crf" :: toString cfg.crf :: "-pix_fmt" :: "yuv420p" :: "-c:a"
              :: "aac" :: "-b:a" :: "192k" :: "-movflags" :: "+faststart"
              :: [out])) := by
      simp [build_ffmpeg_command]
    rw [hcmd, inputPathsOf_cons_ne "ffmpeg" _ (by decide),
      inputPathsOf_cons_ne "-y" _ (by decide), inputPathsOf_cons_i,
      inputPathsOf_flatMap,
      inputPathsOf_cons_ne "-filter_complex" _ (by decide),
      inputPathsOf_cons_ne _ _ hfc,
      inputPathsOf_cons_ne "-map" _ (by decide),
      inputPathsOf_cons_ne "[outv]" _ (by decide),
      inputPathsOf_cons_ne "-map" _ (by decide),
      inputPathsOf_cons_ne "0:a?" _ (by decide),
      inputPathsOf_cons_ne "-c:v" _ (by decide),
      inputPathsOf_cons_ne "libx264" _ (by decide),
      inputPathsOf_cons_ne "-preset" _ (by decide),
      inputPathsOf_cons_ne _ _ hp,
      inputPathsOf_cons_ne "-crf" _ (by decide),
      inputPathsOf_cons_ne _ _ hc,
      inputPathsOf_cons_ne "-pix_fmt" _ (by decide),
      inputPathsOf_cons_ne "yuv420p" _ (by decide),
      inputPathsOf_cons_ne "-c:a" _ (by decide),
      inputPathsOf_cons_ne "aac" _ (by decide),
      inputPathsOf_cons_ne "-b:a" _ (by decide),
      inputPathsOf_cons_ne "192k" _ (by decide),
      inputPathsOf_cons_ne "-movflags" _ (by decide),
      inputPathsOf_cons_ne "+faststart" _ (by decide),
      inputPathsOf_single]
    simp
  · intro i ins hi
    have hlt : i < tl.insertions.length := by
      by_contra hge
      rw [List.getElem?_eq_none (by omega)] at hi
      exact Option.noConfusion hi
    have hstep := filtersAux_get w h tl.insertions 0 tl.insertions.length "[0:v]" i ins hi
    constructor
    · simpa [buildFilters] using hstep.1
    · by_cases hi0 : i = 0
      · subst hi0
        simpa [buildFilters, nextChainLabel] using hstep.2
      · have hne1 : ¬ (i - 1 = tl.insertions.length - 1) := by omega
        simpa [buildFilters, nextChainLabel, hi0, hne1] using hstep.2
  · refine ⟨["ffmpeg", "-y", "-i", tl.base_video]
      ++ tl.insertions.flatMap (fun ins => ["-i", ins.asset_path])
      ++ ["-filter_complex", build_filter_complex tl w h],
      ["-map", "0:a?", "-c:v", "libx264", "-preset", cfg.preset, "-crf",
       toString cfg.crf, "-pix_fmt", "yuv420p", "-c:a", "aac", "-b:a", "192k",
       "-movflags", "+faststart", out], ?_⟩
    simp [build_ffmpeg_command]

theorem claim_C1_index_alignment_witness :
    inputPathsOf
      (build_ffmpeg_command
        (Timeline.from_decisions "base.mp4" "9:16"
          [sampleDec 2 0.9 3 (some "img.png") (some AssetType.image),
           sampleDec 8 0.7 4 (some "vid.mp4") (some AssetType.video)]
          defaultConfig)
        "out.mp4"
        (build_filter_complex
          (Timeline.from_decisions "base.mp4" "9:16"
            [sampleDec 2 0.9 3 (some "img.png") (some AssetType.image),
             sampleDec 8 0.7 4 (some "vid.mp4") (some AssetType.video)]
            defaultConfig) 100 200)
        defaultConfig)
      = (Timeline.from_decisions "base.mp4" "9:16"
          [sampleDec 2 0.9 3 (some "img.png") (some AssetType.image),
           sampleDec 8 0.7 4 (some "vid.mp4") (some AssetType.video)]
          defaultConfig).base_video
        :: (Timeline.from_decisions "base.mp4" "9:16"
            [sampleDec 2 0.9 3 (some "img.png") (some AssetType.image),
             sampleDec 8 0.7 4 (some "vid.mp4") (some AssetType.video)]
            defaultConfig).insertions.map (fun i => i.asset_path) :=
  (claim_C1_index_alignment
    (Timeline.from_decisions "base.mp4" "9:16"
      [sampleDec 2 0.9 3 (some "img.png") (some AssetType.image),
       sampleDec 8 0.7 4 (some "vid.mp4") (some AssetType.video)]
      defaultConfig) 100 200 "out.mp4" defaultConfig
    (by decide) (by decide) (by decide) (by decide)).1

set_option maxRecDepth 4000 in
/-- C2 fails on the code: in the video branch the chain trims *before*
normalizing timestamps (`trim=duration=...` precedes `setpts=PTS-STARTPTS`),
not after as the claim orders the steps.  At a concrete one-video-insertion
timeline the generated chain is the trim-then-setpts string and differs from
the claim's setpts-then-trim string. -/
theorem claim_C2_counterexample :
    (buildFilters
        (Timeline.from_decisions "b.mp4" "9:16"
          [sampleDec 2 0.9 3 (some "v.mp4") (some AssetType.video)]
          defaultConfig) 100 200)[0]?
      = some ("[1:v],scale=40:80,fade=in:st=0:d=3/10:alpha=1,fade=out:st=27/10:d=3/10:"
          ++ "alpha=1,trim=duration=3,setpts=PTS-STARTPTS,format=rgba,"
          ++ "colorchannelmixer=aa=17/20[overlay0]")
    ∧ (buildFilters
        (Timeline.from_decisions "b.mp4" "9:16"
          [sampleDec 2 0.9 3 (some "v.mp4") (some AssetType.video)]
          defaultConfig) 100 200)[0]?
      ≠ some ("[1:v],scale=40:80,fade=in:st=0:d=3/10:alpha=1,fade=out:st=27/10:d=3/10:"
          ++ "alpha=1,setpts=PTS-STARTPTS,trim=duration=3,format=rgba,"
          ++ "colorchannelmixer=aa=17/20[overlay0]") := by
  exact ⟨by decide, by decide⟩

/-- C2 (amended): the per-asset chain applies, in order: scale to the
truncated `(scale*width, scale*height)` (equal to the floor when the scale is
nonnegative), alpha fade-in over `[0, fadeIn]`, alpha fade-out over
`[duration - fadeOut, duration]`; then for video assets trim to exactly the
duration *followed by* timestamp normalization, then conversion to an
alpha-capable format and alpha multiplication by the opacity; for image
assets conversion to an alpha-capable format, alpha multiplication, and then
an indefinite loop, with no timestamp normalization; each chain ends in the
named layer `overlay_i`. -/
theorem claim_C2_chain_order (tl : Timeline) (w h : ℕ) (i : ℕ)
    (ins : TimelineInsertion) (hi : tl.insertions[i]? = some ins) :
    (ins.asset_type = AssetType.video →
      (buildFilters tl w h)[2 * i]? = some (String.intercalate ","
        [ "[" ++ toString (i + 1) ++ ":v]",
          "scale=" ++ toString (pyInt (ins.scale * w)) ++ ":"
            ++ toString (pyInt (ins.scale * h)),
          "fade=in:st=0:d=" ++ fq ins.transition.fade_in ++ ":alpha=1",
          "fade=out:st=" ++ fq (ins.duration - ins.transition.fade_out) ++ ":d="
            ++ fq ins.transition.fade_out ++ ":alpha=1",
          "trim=duration=" ++ fq ins.duration,
          "setpts=PTS-STARTPTS",
          "format=rgba,colorchannelmixer=aa=" ++ fq ins.opacity
            ++ "[overlay" ++ toString i ++ "]" ]))
    ∧ (ins.asset_type = AssetType.image →
      (buildFilters tl w h)[2 * i]? = some (String.intercalate ","
        [ "[" ++ toString (i + 1) ++ ":v]",
          "scale=" ++ toString (pyInt (ins.scale * w)) ++ ":"
            ++ toString (pyInt (ins.scale * h)),
          "fade=in:st=0:d=" ++ fq ins.transition.fade_in ++ ":alpha=1",
          "fade=out:st=" ++ fq (ins.duration - ins.transition.fade_out) ++ ":d="
            ++ fq ins.transition.fade_out ++ ":alpha=1",
          "format=rgba",
          "colorchannelmixer=aa=" ++ fq ins.opacity,
          "loop=loop=-1:size=1:start=0[overlay" ++ toString i ++ "]" ]))
    ∧ (0 ≤ ins.scale →
        pyInt (ins.scale * w) = ⌊ins.scale * (w : ℚ)⌋
        ∧ pyInt (ins.scale * h) = ⌊ins.scale * (h : ℚ)⌋) := by
  have hchain :
      (buildFilters tl w h)[2 * i]? = some (assetFilter (i + 1) i ins w h) := by
    simpa [buildFilters] using
      (filtersAux_get w h tl.insertions 0 tl.insertions.length "[0:v]" i ins hi).1
  refine ⟨?_, ?_, ?_⟩
  · intro hv
    rw [hchain]
    simp [assetFilter, hv]
  · intro himg
    rw [hchain]
    have : ¬ ins.asset_type = AssetType.video := by rw [himg]; decide
    simp [assetFilter, this]
  · intro hs
    have hwn : 0 ≤ (ins.scale * (w : ℚ)).num :=
      Rat.num_nonneg.mpr (mul_nonneg hs (by positivity))
    have hhn : 0 ≤ (ins.scale * (h : ℚ)).num :=
      Rat.num_nonneg.mpr (mul_nonneg hs (by positivity))
    constructor
    · rw [Rat.floor_def]
      unfold pyInt
      rw [if_pos hwn]
    · rw [Rat.floor_def]
      unfold pyInt
      rw [if_pos hhn]

theorem claim_C2_chain_order_witness :
    pyInt ((mkTimelineInsertion 0 "9:16"
        (sampleDec 2 0.9 3 (some "v.mp4") (some AssetType.video))
        defaultConfig).scale * (100 : ℕ))
      = ⌊(mkTimelineInsertion 0 "9:16"
          (sampleDec 2 0.9 3 (some "v.mp4") (some AssetType.video))
          defaultConfig).scale * ((100 : ℕ) : ℚ)⌋
    ∧ pyInt ((mkTimelineInsertion 0 "9:16"
        (sampleDec 2 0.9 3 (some "v.mp4") (some AssetType.video))
        defaultConfig).scale * (200 : ℕ))
      = ⌊(mkTimelineInsertion 0 "9:16"
          (sampleDec 2 0.9 3 (some "v.mp4") (some AssetType.video))
          defaultConfig).scale * ((200 : ℕ) : ℚ)⌋ :=
  (claim_C2_chain_order
    (Timeline.from_decisions "b.mp4" "9:16"
      [sampleDec 2 0.9 3 (some "v.mp4") (some AssetType.video)]
      defaultConfig) 100 200 0
    (mkTimelineInsertion 0 "9:16"
      (sampleDec 2 0.9 3 (some "v.mp4") (some AssetType.video)) defaultConfig)
    (by decide)).2.2 (by decide)

/-- C5: for every decision list and total duration, `validate_insertion_bounds`
drops every decision with a negative timestamp and, for a decision whose end
exceeds the total duration, shrinks the duration to `totalDuration -
timestamp` when that is at least 0.5 s and drops it otherwise (the rule
`boundsStep`, written from the claim).  In particular, with total duration
10.0 a decision at 9.5 s with duration 1.5 is kept with duration 0.5, and one
at 9.8 s with duration 1.5 is dropped. -/
theorem claim_C5_bounds_rule :
    (∀ (l : List VisualInsertion) (dur : ℚ),
        validate_insertion_bounds l dur = l.filterMap (boundsStep dur))
    ∧ validate_insertion_bounds
        [sampleDec 9.5 1 1.5 (some "a.png") (some AssetType.image)] 10
        = [{ sampleDec 9.5 1 1.5 (some "a.png") (some AssetType.image) with
              duration := 0.5 }]
    ∧ validate_insertion_bounds
        [sampleDec 9.8 1 1.5 (some "a.png") (some AssetType.image)] 10 = [] := by
  refine ⟨boundsRun_fst, ?_, ?_⟩ <;> decide

/-- C9 fails on the code: `validate_insertion_bounds` clamps by assigning
`insertion.duration` on the input record itself (line 104), so after the call
on a decision at 9.5 s with duration 1.5 and total duration 10.0 the input
record's duration reads 0.5, not 1.5. -/
theorem claim_C9_counterexample :
    boundsInputsAfter [sampleDec 9.5 1 1.5 (some "a.png") (some AssetType.image)] 10
      ≠ [sampleDec 9.5 1 1.5 (some "a.png") (some AssetType.image)]
    ∧ (boundsInputsAfter [sampleDec 9.5 1 1.5 (some "a.png") (some AssetType.image)] 10).map
        (fun d => d.duration) = [0.5] := by
  exact ⟨by decide, by decide⟩

/-- C9 (amended): the frequency validator returns a list whose members are
records of the input list, unmodified; the bounds validator, however, mutates
in place the `duration` field of every decision it clamps — the state of the
input records after the call is exactly `boundsMut` applied pointwise, which
changes a record on the clamp path only, and only its duration. -/
theorem claim_C9_frame_effect :
    (∀ (l : List VisualInsertion) (dur : ℚ),
        boundsInputsAfter l dur = l.map (boundsMut dur))
    ∧ (∀ (l : List VisualInsertion) (mp : ℕ) (iv : ℚ) (d : VisualInsertion),
        d ∈ validate_insertions_frequency l mp iv → d ∈ l) := by
  constructor
  · exact boundsRun_snd
  · intro l mp iv d hd
    unfold validate_insertions_frequency at hd
    split_ifs at hd
    · simp at hd
    · exact mem_sortTsAsc.mp ((freqWalk_sublist _ _ _).subset hd)

theorem claim_C9_frame_effect_witness :
    sampleDec 2 1 3 (some "a.png") none ∈ [sampleDec 2 1 3 (some "a.png") none] :=
  claim_C9_frame_effect.2 [sampleDec 2 1 3 (some "a.png") none] 1 10
    (sampleDec 2 1 3 (some "a.png") none) (by decide)

/-- C8 fails on the code: ids come from `enumerate(decisions)`, which counts
skipped decisions too.  With a first decision lacking an asset path and a
second carrying one, the single kept insertion — the 0th in the timeline —
has id `ins_001`, not `ins_000`. -/
theorem claim_C8_counterexample :
    ((Timeline.from_decisions "base.mp4" "9:16"
        [sampleDec 1 1 2 none none,
         sampleDec 3 1 2 (some "a.png") (some AssetType.image)]
        defaultConfig).insertions.map (fun i => i.id)) = ["ins_001"]
    ∧ ("ins_001" : String) ≠ "ins_000" := by
  exact ⟨by decide, by decide⟩

/-- C8 (amended): the builder skips every decision whose `asset_path` is
unresolved, and each kept insertion's id is `ins_` followed by the
three-digit index of its originating decision in the *input* list (so the ids
are the consecutive `ins_000, ins_001, …` exactly when no decision is
skipped); the output is a pure function of the input, identical on every
build. -/
theorem claim_C8_ids :
    ∀ (v ar : String) (ds : List VisualInsertion) (cfg : RenderConfig),
      ((Timeline.from_decisions v ar ds cfg).insertions.map (fun i => i.id))
        = (keptIdxAux ds 0).map (fun j => "ins_" ++ pad3 j)
      ∧ (Timeline.from_decisions v ar ds cfg).insertions.length
        = (ds.filter (fun d => truthyOpt d.asset_path)).length := by
  intro v ar ds cfg
  refine ⟨?_, ?_⟩
  · simpa [Timeline.from_decisions] using fromDecisionsAux_map_id ar cfg ds 0
  · simpa [Timeline.from_decisions] using fromDecisionsAux_length ar cfg ds 0

/-- C7: with an empty decision list, or one in which every decision lacks a
resolved asset path, the timeline is empty, so `render` short-circuits: it
copies the source to the output and neither the filter-graph compiler nor the
compositing engine is invoked. -/
theorem claim_C7_empty_shortcut
    (video : String) (ds : List VisualInsertion) (output ar : String)
    (cfg : RenderConfig) (w h : ℕ)
    (hempty : ds = [] ∨ ∀ d ∈ ds, truthyOpt d.asset_path = false) :
    renderPlan video ds output ar cfg w h = RenderPlan.copySource := by
  have hnil : fromDecisionsAux ar cfg ds 0 = [] := by
    rcases hempty with rfl | hall
    · rfl
    · exact fromDecisionsAux_nil ar cfg ds 0 hall
  simp [renderPlan, Timeline.from_decisions, hnil]

theorem claim_C7_empty_shortcut_witness :
    renderPlan "in.mp4" [sampleDec 2 1 3 none none] "out.mp4" "9:16"
      defaultConfig 100 200 = RenderPlan.copySource :=
  claim_C7_empty_shortcut "in.mp4" [sampleDec 2 1 3 none none] "out.mp4" "9:16"
    defaultConfig 100 200 (Or.inr (by decide))

/-- C10 (implicit): a decision with a resolved asset path but no asset kind
is built (the builder never fails) into a `TimelineInsertion` with asset type
`image`, and its compiled per-asset chain is the image branch — scale, fades,
alpha-capable format, opacity multiply, then indefinite loop — not the video
branch with its trim. -/
theorem claim_C10_missing_assetKind
    (v ar : String) (d : VisualInsertion) (cfg : RenderConfig)
    (idx k j w h : ℕ)
    (hpath : truthyOpt d.asset_path = true) (htype : d.asset_type = none) :
    (mkTimelineInsertion idx ar d cfg).asset_type = AssetType.image
    ∧ (Timeline.from_decisions v ar [d] cfg).insertions
        = [mkTimelineInsertion 0 ar d cfg]
    ∧ assetFilter k j (mkTimelineInsertion idx ar d cfg) w h
        = String.intercalate ","
            [ "[" ++ toString k ++ ":v]",
              "scale=" ++ toString (pyInt (cfg.default_scale * w)) ++ ":"
                ++ toString (pyInt (cfg.default_scale * h)),
              "fade=in:st=0:d=" ++ fq cfg.fade_in ++ ":alpha=1",
              "fade=out:st=" ++ fq (d.duration - cfg.fade_out) ++ ":d="
                ++ fq cfg.fade_out ++ ":alpha=1",
              "format=rgba",
              "colorchannelmixer=aa=" ++ fq cfg.default_opacity,
              "loop=loop=-1:size=1:start=0[overlay" ++ toString j ++ "]" ] := by
  refine ⟨?_, ?_, ?_⟩
  · simp [mkTimelineInsertion, htype]
  · simp [Timeline.from_decisions, fromDecisionsAux, hpath]
  · simp [assetFilter, mkTimelineInsertion, htype]

theorem claim_C10_missing_assetKind_witness :
    (mkTimelineInsertion 0 "9:16" (sampleDec 2 0.9 3 (some "img.png") none)
        defaultConfig).asset_type = AssetType.image :=
  (claim_C10_missing_assetKind "b.mp4" "9:16"
    (sampleDec 2 0.9 3 (some "img.png") none) defaultConfig 0 1 0 100 200
    (by decide) rfl).1

/-- C6: the frequency validator equals the claim's description — sort by
timestamp (stably), then keep a decision exactly when its timestamp is at
least `interval / maxPerInterval` after the last kept timestamp, the
earliest-first greedy walk (`freqWalkSpec`, written from the claim, with no
sentinel: the first decision is kept outright) — given the data model's
invariants (`timestamp ≥ 0`, at least one insertion allowed per interval,
nonnegative interval); and every pair of kept decisions in timestamp order is
at least `interval / maxPerInterval` apart. -/
theorem claim_C6_spacing
    (l : List VisualInsertion) (mp : ℕ) (iv : ℚ)
    (hmp : 1 ≤ mp) (hiv : 0 ≤ iv) (hts : ∀ d ∈ l, 0 ≤ d.timestamp) :
    validate_insertions_frequency l mp iv
      = freqWalkSpec (iv / mp) (sortTsAsc l) none
    ∧ ∀ a ∈ validate_insertions_frequency l mp iv,
        ∀ b ∈ validate_insertions_frequency l mp iv,
          a.timestamp < b.timestamp → iv / mp ≤ b.timestamp - a.timestamp := by
  have hmpQ : (1 : ℚ) ≤ (mp : ℚ) := by exact_mod_cast hmp
  have hthr0 : 0 ≤ iv / (mp : ℚ) := div_nonneg hiv (by positivity)
  have hthr_le : iv / (mp : ℚ) ≤ iv := div_le_self hiv hmpQ
  constructor
  · unfold validate_insertions_frequency
    by_cases hl : l = []
    · subst hl; simp [sortTsAsc, freqWalkSpec]
    · rw [if_neg hl]
      obtain ⟨d, rest, hsort⟩ : ∃ d rest, sortTsAsc l = d :: rest := by
        cases l with
        | nil => exact absurd rfl hl
        | cons x xs =>
          cases hins : insertTs x (sortTsAsc xs) with
          | nil => exact absurd hins (insertTs_ne_nil x _)
          | cons d rest => exact ⟨d, rest, by simp [sortTsAsc, hins]⟩
      rw [hsort]
      have hd0 : 0 ≤ d.timestamp :=
        hts d (mem_sortTsAsc.mp (hsort ▸ List.mem_cons_self d rest))
      have hcond : d.timestamp - -iv ≥ iv / (mp : ℚ) := by
        rw [sub_neg_eq_add]; linarith
      simp only [freqWalk, freqWalkSpec, if_pos hcond, freqWalkSpec_some]
  · intro a ha b hb hab
    unfold validate_insertions_frequency at ha hb
    split_ifs at ha hb with hl
    · simp at ha
    · have hgap :=
        (freqWalk_bounds (iv / (mp : ℚ)) hthr0 (sortTsAsc l) (-iv)).2
      rcases pairwise_rel_of_mem _ hgap a b ha hb with rfl | h | h
      · exact absurd hab (lt_irrefl _)
      · exact h
      · exfalso; linarith

/-- C3: for every failure oracle and decision list, the first render attempt
uses the full list; if a second attempt happens its set is the top half
(`⌊n/2⌋` elements) of the previous set under the stable descending-confidence
sort (ties kept in original order — the sort is pairwise descending and
preserves the original order class-by-class of equal confidence); every
attempt after the second uses exactly the single first-of-maximal-confidence
insertion of the previous set; and there are at most `maxRetries + 1` render
attempts — at most 3 with the default `maxRetries = 2`. -/
theorem claim_C3_retry_policy
    (fails : ℕ → List VisualInsertion → Bool) (ds : List VisualInsertion) (mr : ℕ) :
    ((render_with_retry fails ds mr).1)[0]? = some ds
    ∧ (∀ s, ((render_with_retry fails ds mr).1)[1]? = some s →
        s = (sortConfDesc ds).take (ds.length / 2))
    ∧ (∀ k s s', 1 ≤ k →
        ((render_with_retry fails ds mr).1)[k]? = some s →
        ((render_with_retry fails ds mr).1)[k + 1]? = some s' →
        ∃ d, maxConfFirst s = some d ∧ s' = [d])
    ∧ (render_with_retry fails ds mr).1.length ≤ mr + 1
    ∧ (mr = 2 → (render_with_retry fails ds mr).1.length ≤ 3)
    ∧ (sortConfDesc ds).Pairwise (fun a b => b.confidence ≤ a.confidence)
    ∧ (∀ c : ℚ, (sortConfDesc ds).filter (fun d => d.confidence = c)
        = ds.filter (fun d => d.confidence = c)) := by
  refine ⟨retryAux_head fails 0 mr ds, ?_, ?_, retryAux_length fails mr 0 ds, ?_,
    sortConfDesc_pairwise ds, fun c => sortConfDesc_filter c ds⟩
  · intro s hs
    cases mr with
    | zero =>
      exfalso
      unfold render_with_retry at hs
      have hlen := retryAux_length fails 0 0 ds
      rw [List.getElem?_eq_none (by omega)] at hs
      exact Option.noConfusion hs
    | succ r =>
      unfold render_with_retry at hs
      simp only [retryAux] at hs
      by_cases hf : fails 0 ds = true
      · rw [if_pos hf, if_pos trivial] at hs
        rw [List.getElem?_cons_succ, retryAux_head] at hs
        exact (Option.some_injective _ hs).symm
      · rw [if_neg hf] at hs
        rw [List.getElem?_eq_none (by simp)] at hs
        exact Option.noConfusion hs
  · intro k s s' hk hks hks'
    cases mr with
    | zero =>
      exfalso
      unfold render_with_retry at hks'
      have hlen := retryAux_length fails 0 0 ds
      rw [List.getElem?_eq_none (by omega)] at hks'
      exact Option.noConfusion hks'
    | succ r =>
      obtain ⟨j, rfl⟩ : ∃ j, k = j + 1 := ⟨k - 1, by omega⟩
      unfold render_with_retry at hks hks'
      simp only [retryAux] at hks hks'
      by_cases hf : fails 0 ds = true
      · rw [if_pos hf, if_pos trivial] at hks hks'
        rw [List.getElem?_cons_succ] at hks hks'
        exact retryAux_step_ge1 fails r 1 _ (le_refl 1) j s s' hks hks'
      · rw [if_neg hf] at hks'
        rw [List.getElem?_eq_none (by simp)] at hks'
        exact Option.noConfusion hks'
  · intro hmr
    subst hmr
    exact retryAux_length fails 2 0 ds

theorem claim_C3_retry_policy_witness :
    ([sampleDec 2 0.9 2 (some "b.png") none,
      sampleDec 3 0.9 2 (some "c.png") none] : List VisualInsertion)
      = (sortConfDesc
          [sampleDec 1 0.5 2 (some "a.png") none,
           sampleDec 2 0.9 2 (some "b.png") none,
           sampleDec 3 0.9 2 (some "c.png") none,
           sampleDec 4 0.2 2 (some "d.png") none]).take
          ([sampleDec 1 0.5 2 (some "a.png") none,
            sampleDec 2 0.9 2 (some "b.png") none,
            sampleDec 3 0.9 2 (some "c.png") none,
            sampleDec 4 0.2 2 (some "d.png") none].length / 2) :=
  (claim_C3_retry_policy (fun _ _ => true)
    [sampleDec 1 0.5 2 (some "a.png") none,
     sampleDec 2 0.9 2 (some "b.png") none,
     sampleDec 3 0.9 2 (some "c.png") none,
     sampleDec 4 0.2 2 (some "d.png") none] 2).2.1
    [sampleDec 2 0.9 2 (some "b.png") none,
     sampleDec 3 0.9 2 (some "c.png") none] (by decide)

/-- C4: provided a render attempt on an empty decision set never raises
`RenderingError` (in the source, `render` on an empty timeline copies the
source and returns before any engine invocation), the retrying entry point
always terminates with a result for the caller — a successful render or the
terminal fallback that copies the unmodified source to the output path and
returns it — and never lets a render failure (nor the `max([])` error) escape. -/
theorem claim_C4_no_failure_escapes
    (fails : ℕ → List VisualInsertion → Bool) (ds : List VisualInsertion) (mr : ℕ)
    (hE : ∀ n, fails n [] = false) :
    (∃ used, (render_with_retry fails ds mr).2 = Outcome.ok used)
    ∨ (render_with_retry fails ds mr).2 = Outcome.fallbackCopy := by
  have h := retryAux_no_pyError fails hE mr 0 ds
  cases hout : (render_with_retry fails ds mr).2 with
  | ok used => exact Or.inl ⟨used, rfl⟩
  | fallbackCopy => exact Or.inr rfl
  | pyError =>
    unfold render_with_retry at hout
    exact absurd hout h

theorem claim_C4_no_failure_escapes_witness :
    (∃ used,
        (render_with_retry (fun _ s => !s.isEmpty)
          [sampleDec 2 0.9 3 (some "a.png") none] 2).2 = Outcome.ok used)
    ∨ (render_with_retry (fun _ s => !s.isEmpty)
          [sampleDec 2 0.9 3 (some "a.png") none] 2).2 = Outcome.fallbackCopy :=
  claim_C4_no_failure_escapes (fun _ s => !s.isEmpty)
    [sampleDec 2 0.9 3 (some "a.png") none] 2 (fun _ => rfl)

theorem claim_C6_spacing_witness :
    validate_insertions_frequency
      [sampleDec 12 1 2 (some "a.png") none,
       sampleDec 0 1 2 (some "b.png") none,
       sampleDec 3 1 2 (some "c.png") none] 1 10
      = freqWalkSpec ((10 : ℚ) / ((1 : ℕ) : ℚ))
          (sortTsAsc
            [sampleDec 12 1 2 (some "a.png") none,
             sampleDec 0 1 2 (some "b.png") none,
             sampleDec 3 1 2 (some "c.png") none]) none :=
  (claim_C6_spacing
    [sampleDec 12 1 2 (some "a.png") none,
     sampleDec 0 1 2 (some "b.png") none,
     sampleDec 3 1 2 (some "c.png") none] 1 10
    (by decide) (by decide) (by decide)).1
